import Mathlib

/-!
Shallow embedding of the allocator subsystem of `core.hpp` (Hackder/cpp_core).

Memory is modelled as a total function `Nat → Nat` from byte addresses to byte
values; pointers are plain addresses (`Nat`), with `0` playing the role of the
null pointer.  Sizes and offsets are natural numbers (the C code uses `isize`,
but every reachable value in the modelled operations is nonnegative; where the
C code can actually go negative — the `size_t` conversion inside the heap
adapter's resize — the embedding computes with `Int` and reduces modulo `2^64`
exactly as the machine does).  A fatal `core_assert` is modelled by returning
`none` from the corresponding operation.
-/

namespace CoreHpp

/-- `x - x % a`: round `x` down to a multiple of `a`.  For a power of two `a`
this is the bitmask expression `x & ~(a - 1)` used in the source. -/
def alignDown (x a : Nat) : Nat := x - x % a

/-- `(x + a - 1) & ~(a - 1)` from `arena_alloc` / `dynamic_arena_alloc`,
for power-of-two `a` (and, like the C expression, `0` when `a = 0`). -/
def alignUp (x a : Nat) : Nat := alignDown (x + a - 1) a

/-- `memset(start, v, len)` over a byte memory. -/
def memset (mem : Nat → Nat) (start len v : Nat) : Nat → Nat :=
  fun i => if start ≤ i ∧ i < start + len then v else mem i

/-- `memcpy(dst, src, len)` over a byte memory (non-overlapping regions,
as required by the C library function). -/
def memcpy (mem : Nat → Nat) (dst src len : Nat) : Nat → Nat :=
  fun i => if dst ≤ i ∧ i < dst + len then mem (src + (i - dst)) else mem i

/-! ## Linear Arena (`struct Arena`) -/

/-- `struct Arena { Slice<u8> data; isize offset; }`, together with the byte
memory it lives in.  `base` is the address `data.data`, `cap` is `data.size`. -/
structure Arena where
  base : Nat
  cap : Nat
  offset : Nat
  mem : Nat → Nat

/-- `arena_init`: zero the backing buffer and set `offset = 0`. -/
def arena_init (base cap : Nat) (mem : Nat → Nat) : Arena :=
  { base := base, cap := cap, offset := 0, mem := memset mem base cap 0 }

/-- `arena_alloc(arena, size, alignment)`.  Returns the updated arena and the
returned pointer, or `none` for the fatal "Arena out of memory" assertion.
Note that the source aligns the *offset*, not the absolute address, and writes
nothing to the buffer. -/
def arena_alloc (arena : Arena) (size align : Nat) : Option (Arena × Nat) :=
  let aligned_offset := alignUp arena.offset align
  let new_offset := aligned_offset + size
  if new_offset ≤ arena.cap then
    some ({ arena with offset := new_offset }, arena.base + aligned_offset)
  else
    none

/-- `arena_realloc(arena, old_memory, old_size, new_size, alignment)`.
`none` models a failed `core_assert` (non-positive `new_size`, misaligned old
pointer, or out-of-memory).  The guard `old_size ≤ offset + new_size` is the
source's `core_assert(arena->offset >= 0)` after the in-place adjustment. -/
def arena_realloc (arena : Arena) (old_addr old_size new_size align : Nat) :
    Option (Arena × Nat) :=
  if new_size = 0 then none
  else if old_addr % align ≠ 0 then none
  else if old_addr = 0 then arena_alloc arena new_size align
  else if old_addr + old_size = arena.base + arena.offset then
    -- we are the last allocation: grow or shrink in place
    if arena.offset + new_size ≤ arena.cap + old_size then
      if old_size ≤ arena.offset + new_size then
        if new_size < old_size then
          some ({ arena with
                    offset := arena.offset + new_size - old_size,
                    mem := memset arena.mem (old_addr + new_size)
                             (old_size - new_size) 0 },
                old_addr)
        else
          some ({ arena with offset := arena.offset + new_size - old_size },
                old_addr)
      else none
    else none
  else
    match arena_alloc arena new_size align with
    | some (arena1, addr) =>
        some ({ arena1 with mem := memcpy arena1.mem addr old_addr old_size },
              addr)
    | none => none

/-- `arena_reset`: offset back to zero, buffer zero-filled. -/
def arena_reset (arena : Arena) : Arena :=
  { arena with offset := 0, mem := memset arena.mem arena.base arena.cap 0 }

/-! ## Heap adapter (`c_allocator_proc`) -/

/-- Conversion of an `isize` value to `size_t`, as happens implicitly at the
third argument of `memset` in `c_allocator_proc`'s `Resize` branch. -/
def size_t_of_isize (n : Int) : Nat := (n % ((2 : Int) ^ 64)).toNat

/-- `memset` whose start/length arithmetic wraps modulo `2^64`, to express a
`memset` whose byte count came from a wrapped `size_t`. -/
def memsetWrap (mem : Nat → Nat) (start len v : Nat) : Nat → Nat :=
  fun i =>
    if ((((i : Int) - (start : Int)) % ((2 : Int) ^ 64)).toNat < len) then v
    else mem i

/-- `c_allocator_proc` with `AllocationMode::Alloc`: `calloc(size, 1)` returns
a zero-filled region.  `addr` is the address the platform heap hands out
(always `max_align_t`-aligned, i.e. a multiple of 16). -/
def c_allocator_alloc (mem : Nat → Nat) (size addr : Nat) :
    (Nat → Nat) × Nat :=
  (memset mem addr size 0, addr)

/-- `c_allocator_proc` with `AllocationMode::Resize`:
`realloc` (which preserves the first `min(old_size, size)` bytes; `new_addr`
is the possibly different address it returns) followed by
`memset((u8*)data + old_size, 0, size - old_size)` — the byte count of that
`memset` is the `isize` difference converted to `size_t`. -/
def c_allocator_resize (mem : Nat → Nat)
    (old_addr old_size new_size new_addr : Nat) : (Nat → Nat) × Nat :=
  let moved : Nat → Nat := fun i =>
    if new_addr ≤ i ∧ i < new_addr + min old_size new_size then
      mem (old_addr + (i - new_addr))
    else mem i
  (memsetWrap moved (new_addr + old_size)
     (size_t_of_isize ((new_size : Int) - (old_size : Int))) 0,
   new_addr)

/-! ## Dynamic Arena -/

/-- `struct MemoryBlock` (the `prev` link is represented by list structure in
`DynamicArena.blocks`).  `data` is the address of the block's payload. -/
structure MemoryBlock where
  data : Nat
  capacity : Nat
  size : Nat
deriving DecidableEq

/-- `sizeof(MemoryBlock)`: four 8-byte fields on a 64-bit target. -/
def sizeof_MemoryBlock : Nat := 32

/-- The byte count `core_alloc<T>(allocator, count)` requests from the backing
allocator: `count * sizeof(T)`. -/
def core_alloc_request_bytes (count sizeofT : Nat) : Nat := count * sizeofT

/-- Bytes `memory_block_create(size, alloc)` requests from the backing
allocator: it calls `core_alloc<MemoryBlock>(alloc, sizeof(MemoryBlock) + size)`,
so the count argument is `sizeof(MemoryBlock) + size` and the element size is
`sizeof(MemoryBlock)`. -/
def memory_block_request_bytes (size : Nat) : Nat :=
  core_alloc_request_bytes (sizeof_MemoryBlock + size) sizeof_MemoryBlock

/-- `memory_block_create(size, alloc)`: the block lives at `blockAddr` (the
address returned by the backing allocator); its payload `data = (u8*)(block+1)`
starts `sizeof(MemoryBlock)` bytes later; `capacity = size`, `size = 0`. -/
def memory_block_create (size blockAddr : Nat) : MemoryBlock :=
  { data := blockAddr + sizeof_MemoryBlock, capacity := size, size := 0 }

/-- `struct DynamicArena`.  `blocks` is the chain from `current` (head) to the
oldest block (last); the backing allocator is left abstract — operations that
create a block take the address it would return as an explicit argument. -/
structure DynamicArena where
  blocks : List MemoryBlock
  block_size_min : Nat
  mem : Nat → Nat

/-- `dynamic_arena_init`: one initial block of capacity `block_size_min`. -/
def dynamic_arena_init (block_size_min blockAddr : Nat) (mem : Nat → Nat) :
    DynamicArena :=
  { blocks := [memory_block_create block_size_min blockAddr],
    block_size_min := block_size_min, mem := mem }

/-- `dynamic_arena_alloc(arena, size, alignment)`.  `newBlockAddr` is the
address the backing allocator would hand out for a new block.  The source
aligns the absolute address `current->data + current->size` forward, serves
the request from the current block if the aligned end fits its capacity, and
otherwise opens a fresh block of capacity `max(block_size_min, size)`; either
way the returned region is `memset` to zero. -/
def dynamic_arena_alloc (arena : DynamicArena) (size align newBlockAddr : Nat) :
    Option (DynamicArena × Nat) :=
  match arena.blocks with
  | [] => none
  | cur :: rest =>
    let result := alignUp (cur.data + cur.size) align
    let new_size := result + size - cur.data
    if new_size ≤ cur.capacity then
      some ({ arena with
                blocks := { cur with size := new_size } :: rest,
                mem := memset arena.mem result size 0 },
            result)
    else
      let new_capacity := max arena.block_size_min size
      let nb : MemoryBlock :=
        { memory_block_create new_capacity newBlockAddr with size := size }
      some ({ arena with
                blocks := nb :: cur :: rest,
                mem := memset arena.mem nb.data size 0 },
            nb.data)

/-- `dynamic_arena_realloc`.  `none` models a failed `core_assert` (null
arena/current/old pointer, non-positive sizes, misaligned old pointer). -/
def dynamic_arena_realloc (arena : DynamicArena)
    (old_addr old_size new_size align newBlockAddr : Nat) :
    Option (DynamicArena × Nat) :=
  match arena.blocks with
  | [] => none
  | cur :: rest =>
    if old_addr = 0 ∨ old_size = 0 ∨ new_size = 0 ∨ old_addr % align ≠ 0 then
      none
    else if old_addr + old_size = cur.data + cur.size then
      -- we are the last allocation of the current block
      let new_block_size := old_addr - cur.data + new_size
      if cur.capacity < new_block_size then
        match dynamic_arena_alloc arena new_size align newBlockAddr with
        | some (arena1, addr) =>
            some ({ arena1 with
                      mem := memcpy arena1.mem addr old_addr old_size },
                  addr)
        | none => none
      else if new_size < old_size then
        some ({ arena with
                  blocks := { cur with size := new_block_size } :: rest,
                  mem := memset arena.mem (old_addr + new_size)
                           (old_size - new_size) 0 },
              old_addr)
      else
        some ({ arena with
                  blocks := { cur with size := new_block_size } :: rest },
              old_addr)
    else
      match dynamic_arena_alloc arena new_size align newBlockAddr with
      | some (arena1, addr) =>
          some ({ arena1 with
                    mem := memcpy arena1.mem addr old_addr old_size },
                addr)
      | none => none

/-- `dynamic_arena_reset`: free every block except the oldest one (the block
with `prev == nullptr`, i.e. the last of the chain), set its size to 0, zero
its bytes, and make it `current`. -/
def dynamic_arena_reset (arena : DynamicArena) : Option DynamicArena :=
  match arena.blocks with
  | [] => none
  | b :: bs =>
    let oldest := List.getLastD bs b
    some { arena with
             blocks := [{ oldest with size := 0 }],
             mem := memset arena.mem oldest.data oldest.capacity 0 }

/-! ## Helper lemmas -/

theorem alignUp_mod (x a : Nat) : alignUp x a % a = 0 := by
  unfold alignUp alignDown
  rcases Nat.eq_zero_or_pos a with h | h
  · subst h; simp
  · have hmd := Nat.mod_add_div (x + a - 1) a
    have : x + a - 1 - (x + a - 1) % a = a * ((x + a - 1) / a) := by omega
    rw [this]
    exact Nat.mul_mod_right a _

theorem le_alignUp (x a : Nat) (ha : 0 < a) : x ≤ alignUp x a := by
  unfold alignUp alignDown
  have := Nat.mod_lt (x + a - 1) ha
  omega

theorem alignUp_of_dvd (x a : Nat) (ha : 0 < a) (h : a ∣ x) :
    alignUp x a = x := by
  obtain ⟨c, rfl⟩ := h
  unfold alignUp alignDown
  have h1 : a * c + a - 1 = (a - 1) + c * a := by
    rw [Nat.mul_comm]; omega
  rw [h1, Nat.add_mul_mod_self_right, Nat.mod_eq_of_lt (by omega)]
  omega

theorem memset_in (mem : Nat → Nat) (start len v i : Nat)
    (h1 : start ≤ i) (h2 : i < start + len) : memset mem start len v i = v := by
  simp [memset, h1, h2]

theorem memset_out (mem : Nat → Nat) (start len v i : Nat)
    (h : i < start ∨ start + len ≤ i) : memset mem start len v i = mem i := by
  unfold memset
  rcases h with h | h <;> rw [if_neg (by omega)]

theorem memcpy_in (mem : Nat → Nat) (dst src len i : Nat)
    (h1 : dst ≤ i) (h2 : i < dst + len) :
    memcpy mem dst src len i = mem (src + (i - dst)) := by
  simp [memcpy, h1, h2]

theorem memcpy_out (mem : Nat → Nat) (dst src len i : Nat)
    (h : i < dst ∨ dst + len ≤ i) : memcpy mem dst src len i = mem i := by
  unfold memcpy
  rcases h with h | h <;> rw [if_neg (by omega)]

/-! ## Shared concrete objects used by the example theorems -/

/-- The all-zero byte memory. -/
def memZ : Nat → Nat := fun _ => 0

/-! ## Claim C10 -/

/-- Claim C10: `memory_block_create(size, alloc)` requests
`(sizeof(MemoryBlock) + size) * sizeof(MemoryBlock)` bytes from the backing
allocator — the count argument `sizeof(MemoryBlock) + size` is multiplied by
the element size inside `core_alloc<MemoryBlock>` — while the created block's
usable `capacity` field is set to only `size` (and its bump cursor to 0). -/
theorem C10_block_overallocation (size blockAddr : Nat) :
    memory_block_request_bytes size
      = (sizeof_MemoryBlock + size) * sizeof_MemoryBlock ∧
    sizeof_MemoryBlock = 32 ∧
    (memory_block_create size blockAddr).capacity = size ∧
    (memory_block_create size blockAddr).size = 0 :=
  ⟨rfl, rfl, rfl, rfl⟩

/-! ## Claim C2 -/

/-- A 16-byte heap region at address 4096 filled with the byte 17. -/
def memC2 : Nat → Nat := fun i => if 4096 ≤ i ∧ i < 4112 then 17 else 0

/-- Claim C2, evaluation at the failing input: shrinking a 16-byte heap
(`c_allocator_proc`) allocation to 8 bytes executes
`memset(data + 16, 0, (size_t)(8 - 16))`: the byte count wraps to
`2^64 - 8`, and the wrapped write clobbers the returned region itself — the
first of the `min(old_size, new_size) = 8` bytes that the claim requires to
keep the old content `17` reads back as `0` after the call. -/
theorem C2_heap_shrink_eval :
    size_t_of_isize ((8 : Int) - 16) = 2 ^ 64 - 8 ∧
    memC2 4096 = 17 ∧
    (c_allocator_resize memC2 4096 16 8 4096).2 = 4096 ∧
    (c_allocator_resize memC2 4096 16 8 4096).1 4096 = 0 := by
  refine ⟨by decide, by decide, rfl, by decide⟩

/-! ## Claim C1 -/

/-- The address `arena_alloc` returns over a buffer based at address 1. -/
def c1addr : Option Nat := (arena_alloc (arena_init 1 64 memZ) 8 4).map Prod.snd

/-- Claim C1, counterexample: a Linear Arena over a caller-supplied buffer
based at address 1 returns address 1 for an 8-byte allocation with
power-of-two alignment 4, and `1 % 4 ≠ 0` — `arena_alloc` aligns the offset
inside the buffer, not the absolute address, so the claimed absolute
alignment fails for an arbitrarily based buffer. -/
theorem C1_alignment_counterexample :
    c1addr = some 1 ∧ ((1 : Nat) % 4 = 0) = False :=
  ⟨rfl, eq_false (by decide)⟩

/-- Claim C1, amended: with power-of-two alignment `a`, the heap adapter
returns an absolutely `a`-aligned address whenever `a` divides 16 (`calloc`
results are `max_align_t`-aligned and `c_allocator_proc` asserts `a ≤ 16`),
and a Dynamic Arena allocation served inside the current block is absolutely
`a`-aligned; a Linear Arena allocation is aligned only relative to the start
of its caller-supplied buffer — `(address - base) % a = 0` — and a Dynamic
Arena allocation that opens a new block starts at the new block's payload,
whose absolute alignment is inherited from the backing allocator rather than
enforced against `a`. -/
theorem C1_alignment_amended :
    (∀ arena size a addr, 0 < a →
       (arena_alloc arena size a).map Prod.snd = some addr →
       (addr - arena.base) % a = 0) ∧
    (∀ arena cur rest size a nAddr addr, 0 < a →
       arena.blocks = cur :: rest →
       alignUp (cur.data + cur.size) a + size - cur.data ≤ cur.capacity →
       (dynamic_arena_alloc arena size a nAddr).map Prod.snd = some addr →
       addr % a = 0) ∧
    (∀ mem size addr a, a ∣ 16 → addr % 16 = 0 →
       (c_allocator_alloc mem size addr).2 % a = 0) := by
  refine ⟨?_, ?_, ?_⟩
  · intro arena size a addr ha h
    simp only [arena_alloc] at h
    split at h
    · simp only [Option.map_some', Option.some.injEq] at h
      rw [← h, Nat.add_sub_cancel_left]
      exact alignUp_mod _ _
    · simp at h
  · intro arena cur rest size a nAddr addr ha hblocks hfit h
    simp only [dynamic_arena_alloc, hblocks] at h
    rw [if_pos hfit] at h
    simp only [Option.map_some', Option.some.injEq] at h
    rw [← h]
    exact alignUp_mod _ _
  · intro mem size addr a hdvd hmod
    have h16 : (16 : Nat) ∣ addr := Nat.dvd_of_mod_eq_zero hmod
    obtain ⟨c, rfl⟩ := hdvd.trans h16
    exact Nat.mul_mod_right a c

/-- A Dynamic Arena with minimum block size 32 whose initial block was placed
at (16-aligned) address 4096 by the backing allocator. -/
def c6b0 : DynamicArena := dynamic_arena_init 32 4096 memZ

/-- Claim C1, witness for the amended theorem at concrete inputs: a Linear
Arena allocation at buffer base 4096, a Dynamic Arena in-block allocation at
address 4128, and a heap allocation at address 4096. -/
theorem C1_alignment_amended_witness :
    ((4096 : Nat) - 4096) % 4 = 0 ∧ (4128 : Nat) % 16 = 0 ∧
    (4096 : Nat) % 8 = 0 :=
  ⟨C1_alignment_amended.1 (arena_init 4096 64 memZ) 8 4 4096 (by norm_num) rfl,
   C1_alignment_amended.2.1 c6b0 (memory_block_create 32 4096) [] 16 16 8192
     4128 (by norm_num) rfl (by decide) rfl,
   C1_alignment_amended.2.2 memZ 8 4096 8 (by norm_num) (by norm_num)⟩

/-! ## Claim C3 -/

/-- A nonzero byte pattern the caller writes into the first allocation. -/
def pat : Nat → Nat := fun i => i % 251 + 1

/-- Linear Arena over a 1024-byte buffer at address 4096. -/
def c3arena0 : Arena := arena_init 4096 1024 memZ

/-- State after allocating 10 ints (40 bytes, alignment 4). -/
def c3afterAlloc : Arena :=
  match arena_alloc c3arena0 40 4 with
  | some (s, _) => s
  | none => c3arena0

/-- The caller then writes the pattern `pat` into the returned 40 bytes. -/
def c3written : Arena :=
  { c3afterAlloc with
      mem := fun i =>
        if 4096 ≤ i ∧ i < 4136 then pat (i - 4096) else c3afterAlloc.mem i }

/-- Resizing the first pointer to 20 ints directly (it is the tail). -/
def c3tail : Option (Arena × Nat) := arena_realloc c3written 4096 40 80 4

/-- Arena after the tail resize. -/
def c3postA : Arena :=
  match c3tail with
  | some (s, _) => s
  | none => c3arena0

/-- State after instead allocating one more int (4 bytes) in between. -/
def c3afterMid : Arena :=
  match arena_alloc c3written 4 4 with
  | some (s, _) => s
  | none => c3written

/-- Resizing the first pointer to 20 ints after the intervening allocation. -/
def c3nontail : Option (Arena × Nat) := arena_realloc c3afterMid 4096 40 80 4

/-- Arena after the non-tail resize. -/
def c3postB : Arena :=
  match c3nontail with
  | some (s, _) => s
  | none => c3arena0

/-- Claim C3: on a Linear Arena over a 1024-byte buffer, allocating 10 ints
(40 bytes, 4-byte alignment) makes `offset == 40`; immediately resizing that
pointer to 20 ints returns the same pointer (4096) and makes `offset == 80`;
if instead one more int is allocated in between (`offset == 44`), the resize
returns a different pointer (4140) whose first 40 bytes equal the original
content, and `offset == (10 + 1 + 20) * 4 == 124`. -/
theorem C3_concrete_scenario :
    (arena_alloc c3arena0 40 4).map Prod.snd = some 4096 ∧
    c3afterAlloc.offset = 40 ∧
    c3tail.map Prod.snd = some 4096 ∧
    c3postA.offset = 80 ∧
    c3afterMid.offset = 44 ∧
    c3nontail.map Prod.snd = some 4140 ∧
    (4140 : Nat) ≠ 4096 ∧
    c3postB.offset = (10 + 1 + 20) * 4 ∧
    (∀ i, i < 40 → c3postB.mem (4140 + i) = c3written.mem (4096 + i)) := by
  refine ⟨rfl, rfl, rfl, rfl, rfl, rfl, by decide, rfl, ?_⟩
  have hbytes : ∀ i < 40, c3postB.mem (4140 + i) = c3written.mem (4096 + i) :=
    by decide
  exact fun i hi => hbytes i hi

/-- Claim C3, witness: the content-preservation clause evaluated at the first
of the 40 copied bytes. -/
theorem C3_concrete_scenario_witness :
    c3postB.mem (4140 + 0) = c3written.mem (4096 + 0) :=
  C3_concrete_scenario.2.2.2.2.2.2.2.2 0 (by norm_num)

/-! ## Claim C5 -/

/-- Run a sequence of `arena_alloc` requests `(size, alignment)` in order;
`none` if any of them hits the fatal out-of-memory assertion. -/
def runAllocs : Arena → List (Nat × Nat) → Option Arena
  | arena, [] => some arena
  | arena, (s, a) :: rest =>
    match arena_alloc arena s a with
    | some (arena1, _) => runAllocs arena1 rest
    | none => none

/-- The aligned size consumed by each request of a sequence starting at a
given offset: padding up to the aligned offset plus the requested size. -/
def sumAligned : Nat → List (Nat × Nat) → Nat
  | _, [] => 0
  | off, (s, a) :: rest =>
    (alignUp off a - off + s) + sumAligned (alignUp off a + s) rest

/-- Claim C5: for a Linear Arena, after any sequence of allocations (with
positive, in practice power-of-two, alignments) that does not trip the fatal
assertion, `offset` equals its starting value plus the sum of the aligned
sizes consumed by the requests, and `offset` never exceeds the buffer's
capacity; an allocation whose aligned offset plus size would exceed capacity
returns `none` — the model of the fatal "Arena out of memory"
`core_assert`, not a recoverable error. -/
theorem C5_bump_monotonicity :
    (∀ reqs arena result,
       (∀ p, p ∈ reqs → 0 < p.2) →
       arena.offset ≤ arena.cap →
       runAllocs arena reqs = some result →
       result.offset = arena.offset + sumAligned arena.offset reqs ∧
       result.offset ≤ result.cap) ∧
    (∀ arena s a, arena.cap < alignUp arena.offset a + s →
       arena_alloc arena s a = none) := by
  constructor
  · intro reqs
    induction reqs with
    | nil =>
      intro arena result _ hle h
      simp only [runAllocs, Option.some.injEq] at h
      subst h
      simp [sumAligned, hle]
    | cons hd tl ih =>
      intro arena result hpos hle h
      obtain ⟨s, a⟩ := hd
      simp only [runAllocs] at h
      have ha : 0 < a := hpos (s, a) (List.mem_cons_self _ _)
      split at h
      next arena1 addr heq =>
        simp only [arena_alloc] at heq
        split at heq
        next hcap =>
          simp only [Option.some.injEq, Prod.mk.injEq] at heq
          obtain ⟨harena1, -⟩ := heq
          have hoff1 : arena1.offset = alignUp arena.offset a + s := by
            rw [← harena1]
          have hcap1 : arena1.cap = arena.cap := by rw [← harena1]
          have hle1 : arena1.offset ≤ arena1.cap := by
            rw [hoff1, hcap1]; exact hcap
          have := ih arena1 result
            (fun p hp => hpos p (List.mem_cons_of_mem _ hp)) hle1 h
          have halign := le_alignUp arena.offset a ha
          constructor
          · rw [this.1, hoff1, sumAligned]
            omega
          · exact this.2
        next => exact absurd heq (by simp)
      next => exact absurd h (by simp)
  · intro arena s a hover
    simp only [arena_alloc]
    rw [if_neg (by omega)]

/-- Result of running the sequence `[(5, 4), (4, 4)]` on a fresh arena. -/
def c5result : Arena :=
  match runAllocs (arena_init 4096 64 memZ) [(5, 4), (4, 4)] with
  | some s => s
  | none => arena_init 4096 64 memZ

/-- Claim C5, witness: the sequence `[(5, 4), (4, 4)]` on a fresh 64-byte
arena ends with `offset = 12 = (0 + 5) + (3 + 4)`, and a 100-byte request on
that fresh arena is fatal. -/
theorem C5_bump_monotonicity_witness :
    ((c5result.offset = (arena_init 4096 64 memZ).offset +
        sumAligned (arena_init 4096 64 memZ).offset [(5, 4), (4, 4)] ∧
      c5result.offset ≤ c5result.cap)) ∧
    arena_alloc (arena_init 4096 64 memZ) 100 4 = none :=
  ⟨C5_bump_monotonicity.1 [(5, 4), (4, 4)] (arena_init 4096 64 memZ) c5result
     (by decide) (by decide) rfl,
   C5_bump_monotonicity.2 (arena_init 4096 64 memZ) 100 4 (by decide)⟩

/-! ## Claim C4 -/

/-- Characterization of a successful `arena_alloc`. -/
theorem arena_alloc_some (s : Arena) (sz al : Nat) (s1 : Arena) (addr : Nat)
    (heq : arena_alloc s sz al = some (s1, addr)) :
    s1.base = s.base ∧ s1.cap = s.cap ∧ s1.mem = s.mem ∧
    s1.offset = alignUp s.offset al + sz ∧
    addr = s.base + alignUp s.offset al ∧
    alignUp s.offset al + sz ≤ s.cap := by
  simp only [arena_alloc] at heq
  split at heq
  next hcap =>
    simp only [Option.some.injEq, Prod.mk.injEq] at heq
    obtain ⟨h1, h2⟩ := heq
    subst h1
    subst h2
    exact ⟨rfl, rfl, rfl, rfl, rfl, hcap⟩
  next => exact absurd heq (by simp)

/-- A `memset` of zeroes cannot break an all-zero buffer. -/
theorem memset_zero_preserve (m : Nat → Nat) (x l base cap : Nat)
    (h : ∀ i, i < cap → m (base + i) = 0) :
    ∀ i, i < cap → memset m x l 0 (base + i) = 0 := by
  intro i hi
  unfold memset
  split
  · rfl
  · exact h i hi

/-- A `memcpy` whose source lies inside an all-zero buffer cannot break it. -/
theorem memcpy_zero_preserve (m : Nat → Nat) (dst src len base cap : Nat)
    (h : ∀ i, i < cap → m (base + i) = 0)
    (hsrc : base ≤ src) (hlen : src + len ≤ base + cap) :
    ∀ i, i < cap → memcpy m dst src len (base + i) = 0 := by
  intro i hi
  unfold memcpy
  split
  next hin =>
    have hidx : src + (base + i - dst) = base + (src - base + (base + i - dst)) := by
      omega
    rw [hidx]
    exact h _ (by omega)
  next => exact h i hi

/-- Linear-arena states reachable from `arena_init` by allocate / resize /
reset calls whose `old_pointer` is either null or a live prior region below
the current offset. -/
inductive Reach : Arena → Prop where
  | init (base cap : Nat) (mem : Nat → Nat) :
      0 < base → 0 < cap → Reach (arena_init base cap mem)
  | alloc (s : Arena) (sz al : Nat) (s1 : Arena) (addr : Nat) :
      Reach s → arena_alloc s sz al = some (s1, addr) → Reach s1
  | realloc (s : Arena) (old osz nsz al : Nat) (s1 : Arena) (addr : Nat) :
      Reach s →
      (old = 0 ∨ (s.base ≤ old ∧ old + osz ≤ s.base + s.offset)) →
      arena_realloc s old osz nsz al = some (s1, addr) → Reach s1
  | reset (s : Arena) : Reach s → Reach (arena_reset s)

/-- In every reachable state the offset is in bounds and — absent caller
writes, which the reachability relation of claim C4 does not include — the
whole backing buffer is zero. -/
theorem reach_wf (s : Arena) (h : Reach s) :
    s.offset ≤ s.cap ∧ ∀ i, i < s.cap → s.mem (s.base + i) = 0 := by
  induction h with
  | init base cap mem hb hc =>
    refine ⟨Nat.zero_le _, ?_⟩
    intro i hi
    have hi2 : i < cap := hi
    show memset mem base cap 0 (base + i) = 0
    exact memset_in _ _ _ _ _ (Nat.le_add_right _ _) (by omega)
  | alloc s sz al s1 addr hr heq ih =>
    obtain ⟨hb, hc, hm, hoff, -, hle⟩ := arena_alloc_some s sz al s1 addr heq
    rw [hb, hc, hm, hoff]
    exact ⟨hle, ih.2⟩
  | reset s hr ih =>
    refine ⟨Nat.zero_le _, ?_⟩
    exact memset_zero_preserve _ _ _ _ _ ih.2
  | realloc s old osz nsz al s1 addr hr hv heq ih =>
    obtain ⟨hio, hiz⟩ := ih
    simp only [arena_realloc] at heq
    split at heq
    next => exact absurd heq (by simp)
    next hnsz =>
      split at heq
      next => exact absurd heq (by simp)
      next hal =>
        split at heq
        next hold0 =>
          obtain ⟨hb, hc, hm, hoff, -, hle⟩ :=
            arena_alloc_some s nsz al s1 addr heq
          rw [hb, hc, hm, hoff]
          exact ⟨hle, hiz⟩
        next hold0 =>
          split at heq
          next htail =>
            split at heq
            next hcap =>
              split at heq
              next hexp =>
                split at heq
                next hshrink =>
                  simp only [Option.some.injEq, Prod.mk.injEq] at heq
                  obtain ⟨hs1, -⟩ := heq
                  subst hs1
                  refine ⟨?_, ?_⟩
                  · show s.offset + nsz - osz ≤ s.cap
                    omega
                  · show ∀ i, i < s.cap →
                      memset s.mem (old + nsz) (osz - nsz) 0 (s.base + i) = 0
                    exact memset_zero_preserve _ _ _ _ _ hiz
                next hshrink =>
                  simp only [Option.some.injEq, Prod.mk.injEq] at heq
                  obtain ⟨hs1, -⟩ := heq
                  subst hs1
                  refine ⟨?_, hiz⟩
                  show s.offset + nsz - osz ≤ s.cap
                  omega
              next => exact absurd heq (by simp)
            next => exact absurd heq (by simp)
          next htail =>
            split at heq
            next a1 ad halloc =>
              simp only [Option.some.injEq, Prod.mk.injEq] at heq
              obtain ⟨hs1, -⟩ := heq
              subst hs1
              obtain ⟨hb, hc, hm, hoff, -, hle⟩ :=
                arena_alloc_some s nsz al a1 ad halloc
              rcases hv with hv | hv
              · exact absurd hv hold0
              obtain ⟨hv1, hv2⟩ := hv
              refine ⟨?_, ?_⟩
              · show a1.offset ≤ a1.cap
                rw [hoff, hc]
                exact hle
              · show ∀ i, i < a1.cap →
                  memcpy a1.mem ad old osz (a1.base + i) = 0
                rw [hb, hc, hm]
                exact memcpy_zero_preserve s.mem ad old osz s.base s.cap hiz
                  hv1 (by omega)
            next => exact absurd heq (by simp)

/-- Claim C4: every `Allocate(size, alignment)` call returns a pointer to
`size` bytes that are all zero at the moment of return, on all three
allocators: the Linear Arena (which writes nothing at allocation time — the
zeroness comes from the reachable-state invariant `reach_wf`), the Dynamic
Arena (which `memset`s the returned region on both the in-block and the
new-block path, regardless of backing allocator), and the heap adapter
(`calloc`). -/
theorem C4_allocate_zeroed :
    (∀ s sz al s1 addr, Reach s →
       arena_alloc s sz al = some (s1, addr) →
       ∀ j, j < sz → s1.mem (addr + j) = 0) ∧
    (∀ arena sz al nAddr arena1 addr,
       dynamic_arena_alloc arena sz al nAddr = some (arena1, addr) →
       ∀ j, j < sz → arena1.mem (addr + j) = 0) ∧
    (∀ mem sz addr j, j < sz →
       (c_allocator_alloc mem sz addr).1 (addr + j) = 0) := by
  refine ⟨?_, ?_, ?_⟩
  · intro s sz al s1 addr hreach heq j hj
    obtain ⟨-, -, hm, -, had, hle⟩ := arena_alloc_some s sz al s1 addr heq
    rw [hm, had]
    have hz := (reach_wf s hreach).2
    have : s.base + alignUp s.offset al + j
         = s.base + (alignUp s.offset al + j) := by omega
    rw [this]
    exact hz _ (by omega)
  · intro arena sz al nAddr arena1 addr heq j hj
    unfold dynamic_arena_alloc at heq
    rcases hblocks : arena.blocks with - | ⟨cur, rest⟩ <;> rw [hblocks] at heq
    · exact absurd heq (by simp)
    simp only at heq
    split at heq
    next hfit =>
      simp only [Option.some.injEq, Prod.mk.injEq] at heq
      obtain ⟨h1, h2⟩ := heq
      rw [← h1, ← h2]
      exact memset_in _ _ _ _ _ (Nat.le_add_right _ _) (by omega)
    next hfit =>
      simp only [Option.some.injEq, Prod.mk.injEq] at heq
      obtain ⟨h1, h2⟩ := heq
      rw [← h1, ← h2]
      exact memset_in _ _ _ _ _ (Nat.le_add_right _ _) (by omega)
  · intro mem sz addr j hj
    exact memset_in _ _ _ _ _ (Nat.le_add_right _ _) (by omega)

/-- The arena state after allocating 8 bytes (alignment 4) from a fresh
64-byte arena at base 4096. -/
def w4s : Arena :=
  { base := 4096, cap := 64, offset := 8, mem := memset memZ 4096 64 0 }

/-- The dynamic-arena state after allocating 16 bytes (alignment 16) from
`c6b0`. -/
def w4d : DynamicArena :=
  { blocks := [{ data := 4128, capacity := 32, size := 16 }],
    block_size_min := 32, mem := memset memZ 4128 16 0 }

/-- Claim C4, witness: the first byte returned by each of the three
allocators on a concrete fresh allocation is zero. -/
theorem C4_allocate_zeroed_witness :
    w4s.mem (4096 + 0) = 0 ∧ w4d.mem (4128 + 0) = 0 ∧
    (c_allocator_alloc memZ 8 256).1 (256 + 0) = 0 :=
  ⟨C4_allocate_zeroed.1 (arena_init 4096 64 memZ) 8 4 w4s 4096
     (Reach.init 4096 64 memZ (by norm_num) (by norm_num)) rfl 0 (by norm_num),
   C4_allocate_zeroed.2.1 c6b0 16 16 8192 w4d 4128 rfl 0 (by norm_num),
   C4_allocate_zeroed.2.2 memZ 8 256 0 (by norm_num)⟩

/-! ## Claim C9 -/

/-- The invariant claimed for the Linear Arena: every byte of the backing
buffer at an index at or beyond `offset` is zero. -/
def arenaInv (s : Arena) : Prop :=
  ∀ i, s.offset ≤ i → i < s.cap → s.mem (s.base + i) = 0

/-- A buffer at 4096 whose first (live) allocation of 8 bytes holds the
nonzero byte 17; all bytes at index ≥ offset = 16 are zero. -/
def c9mem : Nat → Nat := fun i => if 4096 ≤ i ∧ i < 4104 then 17 else 0

/-- An arena satisfying the invariant: a 64-byte buffer at 4096, offset 16,
with an 8-byte allocation of 17-bytes at its start (and a second, tail
allocation occupying bytes 8..16). -/
def c9arena : Arena := { base := 4096, cap := 64, offset := 16, mem := c9mem }

/-- The arena after shrinking the first (non-tail) allocation to 4 bytes. -/
def c9post : Arena :=
  match arena_realloc c9arena 4096 8 4 4 with
  | some (s, _) => s
  | none => c9arena

/-- Claim C9, counterexample: `c9arena` satisfies the claimed invariant, yet
`arena_realloc` of the non-tail 8-byte allocation at 4096 down to 4 bytes
copies all 8 old bytes into the fresh 4-byte region at offset 16, leaving the
nonzero byte 17 at buffer index 20 = offset — the invariant does not hold
after every `arena_realloc` call. -/
theorem C9_zero_beyond_offset_counterexample :
    arenaInv c9arena ∧
    (arena_realloc c9arena 4096 8 4 4).map Prod.snd = some 4112 ∧
    c9post.offset = 20 ∧
    c9post.mem (c9post.base + 20) = 17 ∧
    arenaInv c9post = False := by
  refine ⟨?_, rfl, rfl, by decide, eq_false ?_⟩
  · intro i h1 h2
    have h1a : 16 ≤ i := h1
    have h2a : i < 64 := h2
    have hb : ∀ j, j < 64 → 16 ≤ j → c9mem (4096 + j) = 0 := by decide
    exact hb i h2a h1a
  · intro hinv
    have h0 := hinv 20 (by decide) (by decide)
    have h17 : c9post.mem (c9post.base + 20) = 17 := by decide
    omega

/-- Claim C9, amended: the invariant (bytes at index ≥ `offset` are zero)
holds after `arena_init` and `arena_reset` and is preserved by `arena_alloc`
and by every `arena_realloc` call that is either a resize of the tail
allocation or non-shrinking (`old_size ≤ new_size`); it is not preserved by a
non-tail shrinking resize, which copies `old_size` bytes into the fresh
`new_size`-byte region and can deposit nonzero bytes at indices ≥ `offset`. -/
theorem C9_zero_beyond_offset_amended :
    (∀ base cap mem, arenaInv (arena_init base cap mem)) ∧
    (∀ s, arenaInv (arena_reset s)) ∧
    (∀ s sz al s1 addr, 0 < al → arenaInv s →
       arena_alloc s sz al = some (s1, addr) → arenaInv s1) ∧
    (∀ s old osz nsz al s1 addr, 0 < al → arenaInv s →
       (old = 0 ∨ (s.base ≤ old ∧ old + osz ≤ s.base + s.offset)) →
       (old + osz = s.base + s.offset ∨ osz ≤ nsz) →
       arena_realloc s old osz nsz al = some (s1, addr) → arenaInv s1) := by
  have halloc : ∀ s sz al s1 addr, 0 < al → arenaInv s →
      arena_alloc s sz al = some (s1, addr) → arenaInv s1 := by
    intro s sz al s1 addr hal hinv heq
    obtain ⟨hb, hc, hm, hoff, -, -⟩ := arena_alloc_some s sz al s1 addr heq
    intro i h1 h2
    rw [hoff] at h1
    rw [hc] at h2
    rw [hm, hb]
    have := le_alignUp s.offset al hal
    exact hinv i (by omega) h2
  refine ⟨?_, ?_, halloc, ?_⟩
  · intro base cap mem i h1 h2
    have h2a : i < cap := h2
    show memset mem base cap 0 (base + i) = 0
    exact memset_in _ _ _ _ _ (Nat.le_add_right _ _) (by omega)
  · intro s i h1 h2
    have h2a : i < s.cap := h2
    show memset s.mem s.base s.cap 0 (s.base + i) = 0
    exact memset_in _ _ _ _ _ (Nat.le_add_right _ _) (by omega)
  · intro s old osz nsz al s1 addr hal hinv hvalid htg heq
    simp only [arena_realloc] at heq
    split at heq
    next => exact absurd heq (by simp)
    next hnsz =>
      split at heq
      next => exact absurd heq (by simp)
      next halm =>
        split at heq
        next hold0 =>
          exact halloc s nsz al s1 addr hal hinv heq
        next hold0 =>
          rcases hvalid with hvalid | hvalid
          · exact absurd hvalid hold0
          obtain ⟨hv1, hv2⟩ := hvalid
          split at heq
          next htail =>
            split at heq
            next hcap =>
              split at heq
              next hexp =>
                split at heq
                next hshrink =>
                  simp only [Option.some.injEq, Prod.mk.injEq] at heq
                  obtain ⟨hs1, -⟩ := heq
                  subst hs1
                  intro i h1 h2
                  have h1a : s.offset + nsz - osz ≤ i := h1
                  have h2a : i < s.cap := h2
                  show memset s.mem (old + nsz) (osz - nsz) 0 (s.base + i) = 0
                  by_cases hcase : s.base + i < old + osz
                  · exact memset_in _ _ _ _ _ (by omega) (by omega)
                  · rw [memset_out _ _ _ _ _ (by omega)]
                    exact hinv i (by omega) h2a
                next hshrink =>
                  simp only [Option.some.injEq, Prod.mk.injEq] at heq
                  obtain ⟨hs1, -⟩ := heq
                  subst hs1
                  intro i h1 h2
                  have h1a : s.offset + nsz - osz ≤ i := h1
                  have h2a : i < s.cap := h2
                  show s.mem (s.base + i) = 0
                  exact hinv i (by omega) h2a
              next => exact absurd heq (by simp)
            next => exact absurd heq (by simp)
          next htail =>
            have hgrow : osz ≤ nsz := by
              rcases htg with htg | htg
              · exact absurd htg htail
              · exact htg
            split at heq
            next a1 ad hallocEq =>
              simp only [Option.some.injEq, Prod.mk.injEq] at heq
              obtain ⟨hs1, -⟩ := heq
              subst hs1
              obtain ⟨hb, hc, hm, hoff, had, -⟩ :=
                arena_alloc_some s nsz al a1 ad hallocEq
              intro i h1 h2
              have h1a : alignUp s.offset al + nsz ≤ i := by
                rw [hoff] at h1; exact h1
              have h2a : i < s.cap := by rw [hc] at h2; exact h2
              show memcpy a1.mem ad old osz (a1.base + i) = 0
              rw [hb, hm, had]
              rw [memcpy_out _ _ _ _ _ (by omega)]
              have := le_alignUp s.offset al hal
              exact hinv i (by omega) h2a
            next => exact absurd heq (by simp)

/-- State before the witness resize: fresh-content 64-byte arena at 4096 with
one 8-byte tail allocation. -/
def w9arena : Arena := { base := 4096, cap := 64, offset := 8, mem := memZ }

/-- State after shrinking the tail allocation of `w9arena` to 4 bytes. -/
def w9post : Arena :=
  { base := 4096, cap := 64, offset := 4, mem := memset memZ 4100 4 0 }

/-- Claim C9, witness for the amended theorem: the invariant survives a
concrete in-place tail shrink from 8 to 4 bytes. -/
theorem C9_zero_beyond_offset_amended_witness : arenaInv w9post :=
  C9_zero_beyond_offset_amended.2.2.2 w9arena 4096 8 4 4 w9post 4096
    (by norm_num) (fun i h1 h2 => rfl)
    (Or.inr ⟨by decide, by decide⟩) (Or.inl (by decide)) rfl

/-! ## Claim C6 -/

/-- The spillover scenario: on a Dynamic Arena with minimum block size `B`,
allocate `B / 2`, then `B / 2`, then `B` bytes (default alignment 16).
`b0` is the address of the initial block; `n1, n2, n3` are the addresses the
backing allocator would return for a new block at each step.  Returns the
final arena and the three returned pointers. -/
def spillRun (B b0 n1 n2 n3 : Nat) (mem : Nat → Nat) :
    Option (DynamicArena × (Nat × Nat × Nat)) :=
  match dynamic_arena_alloc (dynamic_arena_init B b0 mem) (B / 2) 16 n1 with
  | some (a1, ad1) =>
    match dynamic_arena_alloc a1 (B / 2) 16 n2 with
    | some (a2, ad2) =>
      match dynamic_arena_alloc a2 B 16 n3 with
      | some (a3, ad3) => some (a3, ad1, ad2, ad3)
      | none => none
    | none => none
  | none => none

/-- The spillover scenario at `B = 16` (a multiple of the default
alignment 16, as the claim requires). -/
def c6run : Option (DynamicArena × (Nat × Nat × Nat)) :=
  spillRun 16 4096 8192 12288 16384 memZ

/-- Claim C6, counterexample: with minimum block size `B = 16` — a multiple
of the default alignment — allocating `B/2 = 8`, `8`, then `16` bytes yields
a chain of three blocks, not two: the second 8-byte allocation is
address-aligned forward past the 16-byte block's capacity and already opens
a second block, and the final 16-byte allocation opens a third. -/
theorem C6_spillover_counterexample :
    ((c6run.map Prod.fst).map DynamicArena.blocks).map List.length = some 3 ∧
    ((3 : Nat) = 2) = False :=
  ⟨rfl, eq_false (by decide)⟩

/-- State of the Dynamic Arena after the first `B/2` allocation: one block,
half full. -/
def c6state1 (k b0 : Nat) (m : Nat → Nat) : DynamicArena :=
  { blocks := [{ data := b0 + 32, capacity := 32 * k, size := 16 * k }],
    block_size_min := 32 * k, mem := m }

/-- State after the second `B/2` allocation: one block, exactly full. -/
def c6state2 (k b0 : Nat) (m : Nat → Nat) : DynamicArena :=
  { blocks := [{ data := b0 + 32, capacity := 32 * k, size := 32 * k }],
    block_size_min := 32 * k, mem := m }

/-- State after the final `B` allocation: a fresh full block of capacity `B`
chained in front of the original full block. -/
def c6state3 (k b0 n3 : Nat) (m : Nat → Nat) : DynamicArena :=
  { blocks := [{ data := n3 + 32, capacity := 32 * k, size := 32 * k },
               { data := b0 + 32, capacity := 32 * k, size := 32 * k }],
    block_size_min := 32 * k, mem := m }

/-- Claim C6, amended: the spillover behaviour holds whenever `B/2` itself is
a multiple of the default alignment, i.e. `B` is a positive multiple of 32
(with 16-aligned block payloads, as the default heap backing provides):
allocating `B/2`, then `B/2`, then `B` bytes yields a chain of exactly two
blocks — the first two allocations packed at addresses `data` and
`data + B/2` of the original block, which ends full, and the third allocation
starting a fresh block of capacity `max(B, B) = B ≥ B`. -/
theorem C6_spillover_amended (k b0 n1 n2 n3 : Nat) (mem : Nat → Nat)
    (hk : 0 < k) (hb : 16 ∣ b0) :
    dynamic_arena_alloc (dynamic_arena_init (32 * k) b0 mem) (32 * k / 2) 16 n1
      = some (c6state1 k b0 (memset mem (b0 + 32) (16 * k) 0), b0 + 32) ∧
    (∀ m1, dynamic_arena_alloc (c6state1 k b0 m1) (32 * k / 2) 16 n2
      = some (c6state2 k b0 (memset m1 (b0 + 32 + 16 * k) (16 * k) 0),
              b0 + 32 + 16 * k)) ∧
    (∀ m2, dynamic_arena_alloc (c6state2 k b0 m2) (32 * k) 16 n3
      = some (c6state3 k b0 n3 (memset m2 (n3 + 32) (32 * k) 0), n3 + 32)) ∧
    (∀ m3, (c6state3 k b0 n3 m3).blocks.length = 2) := by
  have hhalf : 32 * k / 2 = 16 * k := by omega
  have hdvd1 : (16 : Nat) ∣ b0 + 32 := Nat.dvd_add hb (by norm_num)
  have hdvd2 : (16 : Nat) ∣ b0 + 32 + 16 * k := Nat.dvd_add hdvd1 ⟨k, rfl⟩
  have hdvd3 : (16 : Nat) ∣ b0 + 32 + 32 * k :=
    Nat.dvd_add hdvd1 ⟨2 * k, by ring⟩
  rw [hhalf]
  refine ⟨?_, ?_, ?_, fun m3 => rfl⟩
  · simp only [dynamic_arena_alloc, dynamic_arena_init, memory_block_create,
      sizeof_MemoryBlock, c6state1, Nat.add_zero]
    rw [alignUp_of_dvd _ 16 (by norm_num) hdvd1, Nat.add_sub_cancel_left]
    rw [if_pos (by omega : 16 * k ≤ 32 * k)]
  · intro m1
    simp only [dynamic_arena_alloc, c6state1, c6state2]
    rw [alignUp_of_dvd _ 16 (by norm_num) hdvd2]
    rw [show b0 + 32 + 16 * k + 16 * k - (b0 + 32) = 32 * k from by omega]
    rw [if_pos (Nat.le_refl _)]
  · intro m2
    simp only [dynamic_arena_alloc, memory_block_create, sizeof_MemoryBlock,
      c6state2, c6state3]
    rw [alignUp_of_dvd _ 16 (by norm_num) hdvd3]
    rw [show b0 + 32 + 32 * k + 32 * k - (b0 + 32) = 64 * k from by omega]
    rw [if_neg (by omega : ¬ 64 * k ≤ 32 * k), Nat.max_self]

/-- Claim C6, witness for the amended theorem at `B = 32` with concrete
block addresses and the all-zero starting memory. -/
theorem C6_spillover_amended_witness :
    dynamic_arena_alloc (dynamic_arena_init (32 * 1) 4096 memZ) (32 * 1 / 2)
        16 8192
      = some (c6state1 1 4096 (memset memZ (4096 + 32) (16 * 1) 0),
              4096 + 32) ∧
    dynamic_arena_alloc (c6state1 1 4096 memZ) (32 * 1 / 2) 16 12288
      = some (c6state2 1 4096 (memset memZ (4096 + 32 + 16 * 1) (16 * 1) 0),
              4096 + 32 + 16 * 1) ∧
    dynamic_arena_alloc (c6state2 1 4096 memZ) (32 * 1) 16 16384
      = some (c6state3 1 4096 16384 (memset memZ (16384 + 32) (32 * 1) 0),
              16384 + 32) ∧
    (c6state3 1 4096 16384 memZ).blocks.length = 2 := by
  have h := C6_spillover_amended 1 4096 8192 12288 16384 memZ (by norm_num)
    (by norm_num)
  exact ⟨h.1, h.2.1 memZ, h.2.2.1 memZ, h.2.2.2 memZ⟩

/-! ## Claim C7 -/

/-- The arena after `dynamic_arena_reset` (which succeeds whenever the chain
is nonempty). -/
def afterReset (arena : DynamicArena) : DynamicArena :=
  (dynamic_arena_reset arena).getD arena

/-- Claim C7: for every Dynamic Arena with a nonempty chain, `reset` keeps
exactly the oldest block (the last of the chain, the one with
`prev == nullptr`), sets its size to 0, zeroes its bytes, and makes it
current; a subsequent allocation of size at most the arena's minimum block
size (at default alignment, the oldest block's payload being 16-aligned as
the heap backing provides) is then served from that block — at its start —
without creating a new block.  The hypothesis that the oldest block's
capacity equals `block_size_min` holds for the initial block
`dynamic_arena_init` creates. -/
theorem C7_reset_preserves_oldest (arena : DynamicArena) (b : MemoryBlock)
    (bs : List MemoryBlock) (s nAddr : Nat)
    (hbl : arena.blocks = b :: bs)
    (hcap : (List.getLastD bs b).capacity = arena.block_size_min)
    (hdvd : 16 ∣ (List.getLastD bs b).data)
    (hs : s ≤ arena.block_size_min) :
    dynamic_arena_reset arena = some (afterReset arena) ∧
    (afterReset arena).blocks = [{ List.getLastD bs b with size := 0 }] ∧
    (∀ i, i < (List.getLastD bs b).capacity →
       (afterReset arena).mem ((List.getLastD bs b).data + i) = 0) ∧
    (dynamic_arena_alloc (afterReset arena) s 16 nAddr).map Prod.snd
      = some ((List.getLastD bs b).data) ∧
    ((dynamic_arena_alloc (afterReset arena) s 16 nAddr).map Prod.fst).map
        DynamicArena.blocks
      = some [{ List.getLastD bs b with size := s }] := by
  have hreset : dynamic_arena_reset arena
      = some { arena with
                 blocks := [{ List.getLastD bs b with size := 0 }],
                 mem := memset arena.mem (List.getLastD bs b).data
                          (List.getLastD bs b).capacity 0 } := by
    simp only [dynamic_arena_reset, hbl]
  have haft : afterReset arena
      = { arena with
            blocks := [{ List.getLastD bs b with size := 0 }],
            mem := memset arena.mem (List.getLastD bs b).data
                     (List.getLastD bs b).capacity 0 } := by
    rw [afterReset, hreset]
    rfl
  have halloc : dynamic_arena_alloc (afterReset arena) s 16 nAddr
      = some ({ arena with
                  blocks := [{ List.getLastD bs b with size := s }],
                  mem := memset
                           (memset arena.mem (List.getLastD bs b).data
                              (List.getLastD bs b).capacity 0)
                           ((List.getLastD bs b).data) s 0 },
              (List.getLastD bs b).data) := by
    rw [haft]
    simp only [dynamic_arena_alloc, Nat.add_zero]
    rw [alignUp_of_dvd _ 16 (by norm_num) hdvd, Nat.add_sub_cancel_left]
    rw [if_pos (by rw [hcap]; exact hs)]
  refine ⟨by rw [hreset, haft], by rw [haft], ?_, ?_, ?_⟩
  · intro i hi
    rw [haft]
    exact memset_in _ _ _ _ _ (Nat.le_add_right _ _) (by omega)
  · rw [halloc]
    rfl
  · rw [halloc]
    rfl

/-- A Dynamic Arena with a 64-byte full older block at 4128 and a half-used
64-byte current block at 8224, used to witness claims C7 and C8. -/
def w7arena : DynamicArena :=
  { blocks := [{ data := 8224, capacity := 64, size := 32 },
               { data := 4128, capacity := 64, size := 64 }],
    block_size_min := 64, mem := memZ }

/-- Claim C7, witness: resetting `w7arena` and then allocating 64 bytes. -/
theorem C7_reset_preserves_oldest_witness :
    dynamic_arena_reset w7arena = some (afterReset w7arena) ∧
    (afterReset w7arena).blocks = [{ data := 4128, capacity := 64,
                                     size := 0 }] ∧
    (afterReset w7arena).mem (4128 + 5) = 0 ∧
    (dynamic_arena_alloc (afterReset w7arena) 64 16 16384).map Prod.snd
      = some 4128 ∧
    ((dynamic_arena_alloc (afterReset w7arena) 64 16 16384).map Prod.fst).map
        DynamicArena.blocks
      = some [{ data := 4128, capacity := 64, size := 64 }] := by
  have h := C7_reset_preserves_oldest w7arena
    { data := 8224, capacity := 64, size := 32 }
    [{ data := 4128, capacity := 64, size := 64 }] 64 16384 rfl (by decide)
    (by decide) (by decide)
  exact ⟨h.1, h.2.1, h.2.2.1 5 (by decide), h.2.2.2.1, h.2.2.2.2⟩

/-! ## Claim C8 -/

/-- Characterization of a successful `dynamic_arena_alloc`: the returned
region is zero-filled and either served inside the current block at the
aligned address, or placed at the payload of a freshly created block of
capacity `max(block_size_min, size)`; the older blocks are untouched either
way. -/
theorem dynamic_arena_alloc_some (arena : DynamicArena) (cur : MemoryBlock)
    (rest : List MemoryBlock) (sz al nAddr : Nat) (a1 : DynamicArena)
    (ad : Nat) (hbl : arena.blocks = cur :: rest)
    (heq : dynamic_arena_alloc arena sz al nAddr = some (a1, ad)) :
    a1.block_size_min = arena.block_size_min ∧
    a1.mem = memset arena.mem ad sz 0 ∧
    ((ad = alignUp (cur.data + cur.size) al ∧
      a1.blocks = { cur with size := ad + sz - cur.data } :: rest) ∨
     (ad = nAddr + 32 ∧
      a1.blocks = { data := nAddr + 32,
                    capacity := max arena.block_size_min sz,
                    size := sz } :: cur :: rest)) := by
  simp only [dynamic_arena_alloc, memory_block_create, sizeof_MemoryBlock,
    hbl] at heq
  split at heq
  next hfit =>
    simp only [Option.some.injEq, Prod.mk.injEq] at heq
    obtain ⟨h1, h2⟩ := heq
    subst h2
    rw [← h1]
    exact ⟨rfl, rfl, Or.inl ⟨rfl, rfl⟩⟩
  next hfit =>
    simp only [Option.some.injEq, Prod.mk.injEq] at heq
    obtain ⟨h1, h2⟩ := heq
    subst h2
    rw [← h1]
    exact ⟨rfl, rfl, Or.inr ⟨rfl, rfl⟩⟩

/-- Claim C8: a Dynamic Arena resize whose `old_pointer` is not the tail
allocation of the current block (`old + old_size ≠ current.data +
current.size`) always allocates a fresh region — in the current block or a
newly created one — and copies the old content into it; it never resizes in
place within, or places the result into, any older block of the chain (the
layout hypotheses say the older blocks lie strictly below the current block
and any fresh block lies above it, as with a real heap).  The older blocks
survive unchanged as a suffix of the new chain. -/
theorem C8_nontail_always_copies (arena : DynamicArena) (cur : MemoryBlock)
    (rest : List MemoryBlock) (old osz nsz al nAddr : Nat)
    (arena1 : DynamicArena) (addr : Nat)
    (hbl : arena.blocks = cur :: rest)
    (htail : old + osz ≠ cur.data + cur.size)
    (hwf : cur.size ≤ cur.capacity)
    (hold : old + osz ≤ cur.data + cur.size)
    (hrest : ∀ b, b ∈ rest → b.data + b.capacity ≤ cur.data)
    (hfresh : cur.data + cur.capacity ≤ nAddr + 32)
    (heq : dynamic_arena_realloc arena old osz nsz al nAddr
             = some (arena1, addr)) :
    (dynamic_arena_alloc arena nsz al nAddr).map Prod.snd = some addr ∧
    List.IsSuffix rest arena1.blocks ∧
    (∀ b, b ∈ rest → b.data + b.capacity ≤ addr) ∧
    (∀ j, j < osz → arena1.mem (addr + j) = arena.mem (old + j)) := by
  simp only [dynamic_arena_realloc, hbl] at heq
  split at heq
  next => exact absurd heq (by simp)
  next hguard =>
    push_neg at hguard
    obtain ⟨hold0, -, -, halmod⟩ := hguard
    have hal : 0 < al := by
      rcases Nat.eq_zero_or_pos al with h0 | h
      · subst h0
        rw [Nat.mod_zero] at halmod
        exact absurd halmod hold0
      · exact h
    split at heq
    next a1 ad hallocEq =>
      simp only [Option.some.injEq, Prod.mk.injEq] at heq
      obtain ⟨h1, h2⟩ := heq
      subst h2
      obtain ⟨-, hmem, hcase⟩ :=
        dynamic_arena_alloc_some arena cur rest nsz al nAddr a1 ad hbl
          hallocEq
      have hadGe : cur.data + cur.size ≤ ad := by
        rcases hcase with ⟨had, -⟩ | ⟨had, -⟩
        · rw [had]
          exact le_alignUp _ _ hal
        · omega
      refine ⟨by rw [hallocEq]; rfl, ?_, ?_, ?_⟩
      · rw [← h1]
        show List.IsSuffix rest a1.blocks
        rcases hcase with ⟨-, hbl1⟩ | ⟨-, hbl1⟩ <;> rw [hbl1]
        · exact List.suffix_cons _ _
        · exact (List.suffix_cons cur rest).trans (List.suffix_cons _ _)
      · intro b hb
        exact le_trans (le_trans (hrest b hb) (Nat.le_add_right _ _)) hadGe
      · intro j hj
        rw [← h1]
        show memcpy a1.mem ad old osz (ad + j) = arena.mem (old + j)
        rw [memcpy_in _ _ _ _ _ (Nat.le_add_right _ _) (by omega)]
        rw [Nat.add_sub_cancel_left, hmem]
        exact memset_out _ _ _ _ _ (by omega)
    next => exact absurd heq (by simp)

/-- Arena after the witness non-tail resize on `w7arena`. -/
def w8post : DynamicArena :=
  { blocks := [{ data := 8224, capacity := 64, size := 48 },
               { data := 4128, capacity := 64, size := 64 }],
    block_size_min := 64,
    mem := memcpy (memset memZ 8256 16 0) 8256 8224 16 }

/-- Claim C8, witness: resizing the non-tail 16-byte region at 8224 of
`w7arena` (whose current block tail is at 8224 + 32) to 16 bytes lands at
fresh address 8256 in the current block, leaves the older block as a suffix,
and copies the old bytes. -/
theorem C8_nontail_always_copies_witness :
    (dynamic_arena_alloc w7arena 16 16 16384).map Prod.snd = some 8256 ∧
    List.IsSuffix [{ data := 4128, capacity := 64, size := 64 }]
      w8post.blocks ∧
    ((4128 : Nat) + 64 ≤ 8256) ∧
    w8post.mem (8256 + 3) = w7arena.mem (8224 + 3) := by
  have h := C8_nontail_always_copies w7arena
    { data := 8224, capacity := 64, size := 32 }
    [{ data := 4128, capacity := 64, size := 64 }] 8224 16 16 16 16384
    w8post 8256 rfl (by decide) (by decide) (by decide)
    (by decide) (by decide) rfl
  exact ⟨h.1, h.2.1,
    h.2.2.1 { data := 4128, capacity := 64, size := 64 } (by simp),
    h.2.2.2 3 (by norm_num)⟩

end CoreHpp
